import Mathlib

/-!
Shallow embedding of `udp-procfs-exporter` (`main.go`).

Strings are modelled as `List Char` (the inputs of interest are ASCII, so
byte indices in the Go source coincide with character indices here).
Go `int`/`int64` arithmetic is 64-bit two's complement; additions and
subtractions that can overflow are wrapped with `wrap64`.
-/

/-- Two's-complement wraparound of 64-bit signed integer arithmetic. -/
def wrap64 (x : Int) : Int :=
  (x + 9223372036854775808) % 18446744073709551616 - 9223372036854775808

/-- Go `unicode.IsSpace` on the characters that can occur in these inputs
(Latin-1 portion: tab, newline, vertical tab, form feed, carriage return,
space, NEL, NBSP). -/
def goIsSpace (c : Char) : Bool :=
  c = ' ' || c = Char.ofNat 9 || c = Char.ofNat 10 || c = Char.ofNat 11 ||
  c = Char.ofNat 12 || c = Char.ofNat 13 || c = Char.ofNat 133 || c = Char.ofNat 160

/-- Helper for `goFields`: accumulates the current field (reversed) while
scanning. -/
def goFieldsAux : List Char → List Char → List (List Char)
  | [], acc => if acc.isEmpty then [] else [acc.reverse]
  | c :: cs, acc =>
    if goIsSpace c then
      if acc.isEmpty then goFieldsAux cs [] else acc.reverse :: goFieldsAux cs []
    else
      goFieldsAux cs (c :: acc)

/-- Go `strings.Fields`: split around runs of white space, dropping empty
fields. -/
def goFields (s : List Char) : List (List Char) :=
  goFieldsAux s []

/-- Go `strings.Split(s, sep)` for a one-character separator. -/
def goSplitChar (sep : Char) : List Char → List (List Char)
  | [] => [[]]
  | c :: cs =>
    if c = sep then
      [] :: goSplitChar sep cs
    else
      match goSplitChar sep cs with
      | [] => [[c]]
      | g :: gs => (c :: g) :: gs

/-- Go `strconv` digit value: `0-9`, `a-z`, `A-Z` (value checked against the
base by the caller). -/
def digitVal (c : Char) : Option Nat :=
  if '0' ≤ c ∧ c ≤ '9' then some (c.toNat - '0'.toNat)
  else if 'a' ≤ c ∧ c ≤ 'z' then some (c.toNat - 'a'.toNat + 10)
  else if 'A' ≤ c ∧ c ≤ 'Z' then some (c.toNat - 'A'.toNat + 10)
  else none

/-- Accumulate the magnitude of a digit string in the given base; `none` on
any character that is not a digit of the base (Go `strconv.ParseUint` digit
loop). -/
def digitsVal (base : Nat) : List Char → Nat → Option Nat
  | [], acc => some acc
  | c :: cs, acc =>
    match digitVal c with
    | none => none
    | some d => if d < base then digitsVal base cs (acc * base + d) else none

/-- Go `strconv.ParseInt(s, base, bitSize)` for an explicitly given base
(no prefix or underscore handling, which Go only applies when `base == 0`):
optional single sign, at least one digit, magnitude within `uint64`, result
within the signed `bitSize` range.  `strconv.Atoi s = goParseInt 10 64 s`.
`none` models a non-nil `err`. -/
def goParseInt (base bitSize : Nat) (s : List Char) : Option Int :=
  match s with
  | [] => none
  | c :: rest =>
    let neg : Bool := c = '-'
    let digits := if c = '+' || c = '-' then rest else c :: rest
    if digits.isEmpty then none
    else
      match digitsVal base digits 0 with
      | none => none
      | some n =>
        if n ≥ 2 ^ 64 then none
        else if !neg && n ≥ 2 ^ (bitSize - 1) then none
        else if neg && n > 2 ^ (bitSize - 1) then none
        else some (if neg then -(n : Int) else (n : Int))

/-- The row loop of `parseProcfsNetFile` (`main.go` lines 156-177), over the
lines that follow the header, carrying the `queued` and `dropped`
accumulators.  Result `none` models a Go runtime panic (index out of range
on `fields[4]`, `strings.Split(fields[4], ":")[1]` or `fields[12]`), which
crashes the process; `some (0, 0)` is the early `return 0, 0` taken when a
`strconv` parse fails. -/
def parseLines : List (List Char) → Int → Int → Option (Int × Int)
  | [], q, d => some (q, d)
  | line :: rest, q, d =>
    match (goFields line)[4]? with
    | none => none
    | some f4 =>
      match (goSplitChar ':' f4)[1]? with
      | none => none
      | some rx =>
        match goParseInt 16 32 rx with
        | none => some (0, 0)
        | some v =>
          match (goFields line)[12]? with
          | none => none
          | some f12 =>
            match goParseInt 10 64 f12 with
            | none => some (0, 0)
            | some w => parseLines rest (wrap64 (q + v)) (wrap64 (d + w))

/-- `parseProcfsNetFile` (`main.go` lines 146-180).  The input is `none`
when `os.Open` fails, otherwise the list of lines produced by the
line scanner.  The loop skips the single header line (`if n < 1`), then
folds `parseLines` over the remaining rows.  Output `none` models a panic;
`some (q, d)` is the returned pair. -/
def parseProcfsNetFile : Option (List (List Char)) → Option (Int × Int)
  | none => some (0, 0)
  | some [] => some (0, 0)
  | some (_hdr :: rows) => parseLines rows 0 0

/-- The pair of values a single row contributes when every lookup and parse
in the row loop succeeds: the hexadecimal value of the element at index 1 of
`fields[4]` split on a colon (the `rx_queue` half), and the decimal value of
`fields[12]`. -/
def rowValue (line : List Char) : Option (Int × Int) :=
  match (goFields line)[4]? with
  | none => none
  | some f4 =>
    match (goSplitChar ':' f4)[1]? with
    | none => none
    | some rx =>
      match goParseInt 16 32 rx with
      | none => none
      | some v =>
        match (goFields line)[12]? with
        | none => none
        | some f12 =>
          match goParseInt 10 64 f12 with
          | none => none
          | some w => some (v, w)

/-- A row whose structure lets the loop reach a `strconv` call that fails:
`fields[4]` exists and contains a colon, and either its post-colon element
is not valid hex, or it is and `fields[12]` exists but is not a valid
decimal.  On such a row the loop takes `return 0, 0`. -/
def strconvBadRow (line : List Char) : Bool :=
  match (goFields line)[4]? with
  | none => false
  | some f4 =>
    match (goSplitChar ':' f4)[1]? with
    | none => false
    | some rx =>
      match goParseInt 16 32 rx with
      | none => true
      | some _ =>
        match (goFields line)[12]? with
        | none => false
        | some f12 => (goParseInt 10 64 f12).isNone

/-- One tick of the dropped-counter reconciliation in `watchUDPBuffers`
(`main.go` lines 119-125 and 140-143, identically lines 132-138 for udp6):
`diff := droppedUDP - lastDropped`; when `diff < 0` the diff is clamped to
`0` and `droppedUDP` is overwritten with `lastDropped`; at the end of the
loop body `lastDropped = droppedUDP`.  Returns the new `lastDropped`
baseline and the amount added to the counter. -/
def watchStep (lastDropped droppedUDP : Int) : Int × Int :=
  let diff := wrap64 (droppedUDP - lastDropped)
  if diff < 0 then (lastDropped, 0) else (droppedUDP, diff)

/-- Iterating `watchStep` over a sequence of sampled dropped totals, one per
tick.  Returns the final baseline and the list of per-tick applied deltas. -/
def watchRun (lastDropped : Int) : List Int → Int × List Int
  | [] => (lastDropped, [])
  | t :: ts =>
    let s := watchStep lastDropped t
    let r := watchRun s.1 ts
    (r.1, s.2 :: r.2)

/-- The value of the exported cumulative dropped counter after feeding a
sequence of sampled totals, starting from counter value `c` and stored
baseline `lastDropped` (each tick does `udpBufferDropped.Add(diff)`). -/
def counterAfter (c lastDropped : Int) : List Int → Int
  | [] => c
  | t :: ts => counterAfter (c + (watchStep lastDropped t).2) (watchStep lastDropped t).1 ts

/-- Last element of a tick sequence, with default `d` for the empty
sequence. -/
def lastTotal (d : Int) : List Int → Int
  | [] => d
  | t :: ts => lastTotal t ts

/-- One entry seen by `filepath.Walk("/proc", walkProcFSStatus)`:
its path, whether `Walk` passed a non-nil `err` for it, and the result of
`ioutil.ReadFile` on it (`none` = read error). -/
structure ProcEntry where
  path : List Char
  walkErr : Bool
  content : Option (List Char)

/-- How a scan can terminate abnormally: the callback returned a non-nil
error (so `filepath.Walk` stops and `findPIDByName` hits `log.Fatal`,
since the error is never `io.EOF`), or the callback panicked (slice index
out of range), crashing the process. -/
inductive ScanAbort where
  | errReturned : ScanAbort
  | panicked : ScanAbort
deriving DecidableEq

/-- Whether `needle` is a prefix of `hay`. -/
def startsWith : List Char → List Char → Bool
  | [], _ => true
  | _ :: _, [] => false
  | a :: as, b :: bs => a = b && startsWith as bs

/-- Go `strings.Contains hay needle`: substring containment. -/
def containsSub (needle : List Char) : List Char → Bool
  | [] => needle.isEmpty
  | c :: cs => startsWith needle (c :: cs) || containsSub needle cs

/-- The path test of `walkProcFSStatus` (`main.go` line 89): the path
contains `/status` and `/proc/` and has exactly three slashes. -/
def isStatusPath (p : List Char) : Bool :=
  containsSub "/status".toList p && containsSub "/proc/".toList p &&
    (p.filter (fun c => c = '/')).length == 3

/-- Index of the last slash seen so far (Go `strings.LastIndex(path, "/")`,
`none` for -1). -/
def lastIndexSlashAux : List Char → Nat → Option Nat → Option Nat
  | [], _, best => best
  | c :: cs, i, best => lastIndexSlashAux cs (i + 1) (if c = '/' then some i else best)

/-- Go `strings.LastIndex(path, "/")`, as an `Option`. -/
def lastIndexSlash (p : List Char) : Option Nat :=
  lastIndexSlashAux p 0 none

/-- The slice `path[6:strings.LastIndex(path, "/")]` of `main.go` line 90;
`none` models the slice-bounds panic (no slash, or last slash before
index 6). -/
def pidSegment (p : List Char) : Option (List Char) :=
  match lastIndexSlash p with
  | none => none
  | some idx => if idx < 6 then none else some ((p.drop 6).take (idx - 6))

/-- Index of the first newline (Go `bytes.IndexByte(f, '\n')`, `none`
for -1). -/
def firstNL : List Char → Option Nat
  | [] => none
  | c :: cs => if c = Char.ofNat 10 then some 0 else (firstNL cs).map (· + 1)

/-- The slice `f[6:bytes.IndexByte(f, '\n')]` of `main.go` line 102 — the
process name from the first line `Name:\t<name>` of a status file; `none`
models the slice-bounds panic (no newline, or newline before index 6). -/
def nameOf (f : List Char) : Option (List Char) :=
  match firstNL f with
  | none => none
  | some i => if i < 6 then none else some ((f.drop 6).take (i - 6))

/-- The body of `walkProcFSStatus` (`main.go` lines 83-110) on one entry,
with the globals `targetProcName`/`targetPID` made explicit (`target`, `st`;
the stored PID string `strconv.Itoa(pid)` is represented by the integer
`pid`).  A non-nil incoming `err` is skipped (`return nil`); on a status
path, a failing `strconv.Atoi` of the pid segment or a failing
`ioutil.ReadFile` is returned as an error; slicing the name can panic;
a name match overwrites the stored PID. -/
def walkProcFSStatus (target : List Char) (st : Option Int) (e : ProcEntry) :
    Except ScanAbort (Option Int) :=
  if e.walkErr then .ok st
  else if isStatusPath e.path then
    match pidSegment e.path with
    | none => .error .panicked
    | some seg =>
      match goParseInt 10 64 seg with
      | none => .error .errReturned
      | some pid =>
        match e.content with
        | none => .error .errReturned
        | some f =>
          match nameOf f with
          | none => .error .panicked
          | some nm => .ok (if nm = target then some pid else st)
  else .ok st

/-- `filepath.Walk` over the entry list: applies `walkProcFSStatus` to each
entry in order, stopping at the first error the callback returns. -/
def filepathWalk (target : List Char) (st : Option Int) :
    List ProcEntry → Except ScanAbort (Option Int)
  | [] => .ok st
  | e :: es =>
    match walkProcFSStatus target st e with
    | .error a => .error a
    | .ok st2 => filepathWalk target st2 es

/-- `findPIDByName` (`main.go` lines 70-81): walk the whole entry list
starting from an unset `targetPID`.  An `.error .errReturned` outcome means
`filepath.Walk` returned a non-`io.EOF` error and the program exits via
`log.Fatal`; `.error .panicked` means the callback crashed the process. -/
def findPIDByName (procName : List Char) (entries : List ProcEntry) :
    Except ScanAbort (Option Int) :=
  filepathWalk procName none entries

/-- The PID an entry contributes when the scan processes it cleanly and its
name matches the target. -/
def matchPid (target : List Char) (e : ProcEntry) : Option Int :=
  if e.walkErr then none
  else if isStatusPath e.path then
    match pidSegment e.path with
    | none => none
    | some seg =>
      match goParseInt 10 64 seg with
      | none => none
      | some pid =>
        match e.content with
        | none => none
        | some f =>
          match nameOf f with
          | none => none
          | some nm => if nm = target then some pid else none
  else none

/-- First matching entry of a list. -/
def firstMatch (target : List Char) : List ProcEntry → Option Int
  | [] => none
  | e :: es =>
    match matchPid target e with
    | some p => some p
    | none => firstMatch target es

/-- Last matching entry in scan order: the first match of the reversed
list. -/
def lastMatch (target : List Char) (entries : List ProcEntry) : Option Int :=
  firstMatch target entries.reverse

/-- An entry on which the scan can neither return an error nor panic:
`Walk` passed no error, and if it is a status path then its pid segment
slices and parses, its content is readable, and its name slices. -/
def cleanEntry (e : ProcEntry) : Bool :=
  !e.walkErr &&
    (!(isStatusPath e.path) ||
      ((pidSegment e.path).bind (goParseInt 10 64)).isSome &&
        (e.content.bind nameOf).isSome)

theorem wrap64_eq_self (x : Int) (h1 : -9223372036854775808 ≤ x)
    (h2 : x < 9223372036854775808) : wrap64 x = x := by
  unfold wrap64
  omega

theorem parseLines_cons_good (r : List Char) (v w : Int) (rest : List (List Char)) (q d : Int)
    (h : rowValue r = some (v, w)) :
    parseLines (r :: rest) q d = parseLines rest (wrap64 (q + v)) (wrap64 (d + w)) := by
  cases h4 : (goFields r)[4]? with
  | none => simp [rowValue, h4] at h
  | some f4 =>
    cases h5 : (goSplitChar ':' f4)[1]? with
    | none => simp [rowValue, h4, h5] at h
    | some rx =>
      cases h6 : goParseInt 16 32 rx with
      | none => simp [rowValue, h4, h5, h6] at h
      | some v0 =>
        cases h7 : (goFields r)[12]? with
        | none => simp [rowValue, h4, h5, h6, h7] at h
        | some f12 =>
          cases h8 : goParseInt 10 64 f12 with
          | none => simp [rowValue, h4, h5, h6, h7, h8] at h
          | some w0 =>
            have hvw : v0 = v ∧ w0 = w := by
              simpa [rowValue, h4, h5, h6, h7, h8] using h
            simp [parseLines, h4, h5, h6, h7, h8, hvw.1, hvw.2]

theorem parseLines_good_rows (rows : List (List Char)) (vals : List (Int × Int))
    (hf : List.Forall₂ (fun r p => rowValue r = some p) rows vals) :
    ∀ q d : Int, 0 ≤ q → 0 ≤ d →
      (∀ p ∈ vals, 0 ≤ p.1 ∧ 0 ≤ p.2) →
      q + (vals.map Prod.fst).sum < 9223372036854775808 →
      d + (vals.map Prod.snd).sum < 9223372036854775808 →
      parseLines rows q d =
        some (q + (vals.map Prod.fst).sum, d + (vals.map Prod.snd).sum) := by
  induction hf with
  | nil => intro q d _ _ _ _ _; simp [parseLines]
  | @cons r p rows' vals' hrp htail ih =>
    intro q d hq hd hnn hqb hdb
    obtain ⟨v, w⟩ := p
    simp only [List.map_cons, List.sum_cons] at hqb hdb ⊢
    have hvw := hnn (v, w) (List.mem_cons_self _ _)
    have hrest : ∀ p ∈ vals', 0 ≤ p.1 ∧ 0 ≤ p.2 :=
      fun p hp => hnn p (List.mem_cons_of_mem _ hp)
    have hsf : 0 ≤ (vals'.map Prod.fst).sum := by
      refine List.sum_nonneg ?_
      intro x hx
      obtain ⟨p, hp, rfl⟩ := List.mem_map.1 hx
      exact (hrest p hp).1
    have hss : 0 ≤ (vals'.map Prod.snd).sum := by
      refine List.sum_nonneg ?_
      intro x hx
      obtain ⟨p, hp, rfl⟩ := List.mem_map.1 hx
      exact (hrest p hp).2
    have hqv : wrap64 (q + v) = q + v := by
      refine wrap64_eq_self _ (by omega) (by omega)
    have hdw : wrap64 (d + w) = d + w := by
      refine wrap64_eq_self _ (by omega) (by omega)
    rw [parseLines_cons_good r v w rows' q d hrp, hqv, hdw,
      ih (q + v) (d + w) (by omega) (by omega) hrest (by omega) (by omega)]
    simp only [Option.some.injEq, Prod.mk.injEq]
    constructor <;> ring

theorem parseLines_bad_head (bad : List Char) (rest : List (List Char)) (q d : Int)
    (h : strconvBadRow bad = true) :
    parseLines (bad :: rest) q d = some (0, 0) := by
  cases h4 : (goFields bad)[4]? with
  | none => simp [strconvBadRow, h4] at h
  | some f4 =>
    cases h5 : (goSplitChar ':' f4)[1]? with
    | none => simp [strconvBadRow, h4, h5] at h
    | some rx =>
      cases h6 : goParseInt 16 32 rx with
      | none => simp [parseLines, h4, h5, h6]
      | some v =>
        cases h7 : (goFields bad)[12]? with
        | none => simp [strconvBadRow, h4, h5, h6, h7] at h
        | some f12 =>
          cases h8 : goParseInt 10 64 f12 with
          | none => simp [parseLines, h4, h5, h6, h7, h8]
          | some w => simp [strconvBadRow, h4, h5, h6, h7, h8] at h

/-- C2 (corrected): the claim as stated is false — the code parses
`strings.Split(fields[4], ":")[1]`, the second (`rx_queue`) element of the
pair, not the first (`tx_queue`): the single-row table with
`fields[4] = 0A:0000` and `fields[12] = 5` yields `(0, 5)`, not `(10, 5)`. -/
theorem parse_tx_queue_cex :
    parseProcfsNetFile (some ["  sl  local_address rem_address".toList,
        "  0: 00000000:0000 00000000:0000 07 0A:0000 00:00000000 00000000 0 0 0 2 0 5".toList]) =
      some (0, 5) ∧
    parseProcfsNetFile (some ["  sl  local_address rem_address".toList,
        "  0: 00000000:0000 00000000:0000 07 0A:0000 00:00000000 00000000 0 0 0 2 0 5".toList]) ≠
      some (10, 5) := by
  decide

/-- C2 (amended): for a header line followed by rows that all parse cleanly
with row values `(vᵢ, wᵢ)` — `vᵢ` the hexadecimal value of the second
(`rx_queue`) element of field 4, `wᵢ` the decimal value of field 12 — and
whose sums stay in the 64-bit range, `parseProcfsNetFile` returns
`(sum of vᵢ, sum of wᵢ)`. -/
theorem parse_sums_rx_and_drops (hdr : List Char) (rows : List (List Char))
    (vals : List (Int × Int))
    (hf : List.Forall₂ (fun r p => rowValue r = some p) rows vals)
    (hnn : ∀ p ∈ vals, 0 ≤ p.1 ∧ 0 ≤ p.2)
    (hq : (vals.map Prod.fst).sum < 9223372036854775808)
    (hd : (vals.map Prod.snd).sum < 9223372036854775808) :
    parseProcfsNetFile (some (hdr :: rows)) =
      some ((vals.map Prod.fst).sum, (vals.map Prod.snd).sum) := by
  have h := parseLines_good_rows rows vals hf 0 0 le_rfl le_rfl hnn (by omega) (by omega)
  simpa [parseProcfsNetFile] using h

/-- Witness for C2 (amended) at a concrete two-row table: rx values
`3` and `0`, drop values `7` and `2`. -/
theorem parse_sums_rx_and_drops_witness :
    parseProcfsNetFile (some ["  sl  local_address rem_address st tx_queue".toList,
        "  1: 00000000:0000 00000000:0000 07 0B:0003 00:00000000 00000000 0 0 0 2 0 7".toList,
        "  2: 00000000:0000 00000000:0000 07 FF:0000 00:00000000 00000000 0 0 0 2 0 2".toList]) =
      some (3, 9) := by
  have h := parse_sums_rx_and_drops "  sl  local_address rem_address st tx_queue".toList
    ["  1: 00000000:0000 00000000:0000 07 0B:0003 00:00000000 00000000 0 0 0 2 0 7".toList,
     "  2: 00000000:0000 00000000:0000 07 FF:0000 00:00000000 00000000 0 0 0 2 0 2".toList]
    [((3 : Int), (7 : Int)), ((0 : Int), (2 : Int))]
    (List.Forall₂.cons (by decide) (List.Forall₂.cons (by decide) List.Forall₂.nil))
    (by decide) (by decide) (by decide)
  simpa using h

/-- C7 (confirmed): appending one row on which a `strconv` parse fails (its
`rx` element of field 4 is not hexadecimal, or its field 12 is not decimal)
to an otherwise well-formed table makes `parseProcfsNetFile` return exactly
`(0, 0)`: the partial sums of the earlier well-formed rows are discarded. -/
theorem parse_bad_row_discards_tick (hdr bad : List Char) (rows : List (List Char))
    (vals : List (Int × Int))
    (hf : List.Forall₂ (fun r p => rowValue r = some p) rows vals)
    (hbad : strconvBadRow bad = true) :
    parseProcfsNetFile (some (hdr :: (rows ++ [bad]))) = some (0, 0) := by
  have key : ∀ q d : Int, parseLines (rows ++ [bad]) q d = some (0, 0) := by
    induction hf with
    | nil => intro q d; simpa using parseLines_bad_head bad [] q d hbad
    | @cons r p rows' vals' hrp htail ih =>
      intro q d
      obtain ⟨v, w⟩ := p
      rw [List.cons_append, parseLines_cons_good r v w _ q d hrp]
      exact ih _ _
  simpa [parseProcfsNetFile] using key 0 0

/-- Witness for C7: one well-formed row followed by a row whose field 12 is
not decimal. -/
theorem parse_bad_row_discards_tick_witness :
    parseProcfsNetFile (some ["  sl  header line".toList,
        "  3: 00000000:0000 00000000:0000 07 00:0001 00:00000000 00000000 0 0 0 2 0 4".toList,
        "  4: 00000000:0000 00000000:0000 07 00:0002 00:00000000 00000000 0 0 0 2 0 x9".toList]) =
      some (0, 0) := by
  have h := parse_bad_row_discards_tick "  sl  header line".toList
    "  4: 00000000:0000 00000000:0000 07 00:0002 00:00000000 00000000 0 0 0 2 0 x9".toList
    ["  3: 00000000:0000 00000000:0000 07 00:0001 00:00000000 00000000 0 0 0 2 0 4".toList]
    [((1 : Int), (4 : Int))]
    (List.Forall₂.cons (by decide) List.Forall₂.nil)
    (by decide)
  simpa using h

/-- C4 (corrected): the claim's guarantee fails for structurally malformed
rows — on a row with fewer than 13 whitespace-separated fields the loop
indexes `fields[4]` (or `fields[12]`) out of range and panics, terminating
the process (modelled as `none`), instead of producing the `(0, 0)`
default. -/
theorem parse_malformed_row_panic_cex :
    parseProcfsNetFile (some ["  sl hdr".toList, "  0: 1234".toList]) = none ∧
    parseProcfsNetFile (some ["  sl hdr".toList, "  0: 1234".toList]) ≠ some (0, 0) := by
  decide

/-- C4 (amended): per-tick parsing splits malformed rows in two classes.
A row that reaches a failing `strconv` parse (field 4 has a colon but a
non-hex `rx` element, or field 12 is not decimal) yields the `(0, 0)`
default with a diagnostic and no crash; but a row with fewer than 5 fields,
a field 4 without a colon separator, or fewer than 13 fields, makes the
process panic with an index-out-of-range error (modelled as `none`). -/
theorem parse_malformed_row_split :
    parseProcfsNetFile (some ["sl hdr".toList,
        "  9: 0:0 0:0 07 00:ZZZZ 00:0 00000000 0 0 0 2 0 5".toList]) = some (0, 0) ∧
    parseProcfsNetFile (some ["sl hdr".toList, "1 2 3 4".toList]) = none ∧
    parseProcfsNetFile (some ["sl hdr".toList,
        "  9: 0:0 0:0 07 0A0000 00:0 00000000 0 0 0 2 0 5".toList]) = none ∧
    parseProcfsNetFile (some ["sl hdr".toList,
        "  9: 0:0 0:0 07 00:0000 00:0 00000000 0 0 0 5".toList]) = none := by
  decide

/-- C9 (confirmed): when `os.Open` fails, `parseProcfsNetFile` returns
`(0, 0)` and propagates no error; the tick proceeds with zero values. -/
theorem parse_open_failure_zero : parseProcfsNetFile none = some (0, 0) := rfl

theorem watchStep_delta_nonneg (l c : Int) : 0 ≤ (watchStep l c).2 := by
  by_cases h : wrap64 (c - l) < 0
  · simp [watchStep, h]
  · simp [watchStep, h]
    exact le_of_not_lt h

theorem watchStep_of_le (l c : Int) (hl0 : 0 ≤ l) (hlB : l < 9223372036854775808)
    (hc0 : 0 ≤ c) (hcB : c < 9223372036854775808) (h : l ≤ c) :
    watchStep l c = (c, c - l) := by
  have hw : wrap64 (c - l) = c - l := wrap64_eq_self _ (by omega) (by omega)
  simp [watchStep, hw, show ¬(c - l < 0) by omega]

theorem watchStep_of_lt (l c : Int) (hl0 : 0 ≤ l) (hlB : l < 9223372036854775808)
    (hc0 : 0 ≤ c) (hcB : c < 9223372036854775808) (h : c < l) :
    watchStep l c = (l, 0) := by
  have hw : wrap64 (c - l) = c - l := wrap64_eq_self _ (by omega) (by omega)
  simp [watchStep, hw, show c - l < 0 by omega]

theorem watchRun_sum_chain (ts : List Int) :
    ∀ p : Int, 0 ≤ p → p < 9223372036854775808 →
      (∀ t ∈ ts, 0 ≤ t ∧ t < 9223372036854775808) →
      List.Chain (fun a b => a ≤ b) p ts →
      ((watchRun p ts).2).sum = lastTotal p ts - p := by
  induction ts with
  | nil => intro p _ _ _ _; simp [watchRun, lastTotal]
  | cons t ts ih =>
    intro p hp0 hpB hts hch
    cases hch with
    | cons hpt hch2 =>
      have hmem := hts t (List.mem_cons_self _ _)
      have hstep : watchStep p t = (t, t - p) :=
        watchStep_of_le p t hp0 hpB hmem.1 hmem.2 hpt
      have hrest : ∀ x ∈ ts, 0 ≤ x ∧ x < 9223372036854775808 :=
        fun x hx => hts x (List.mem_cons_of_mem _ hx)
      have htail := ih t hmem.1 hmem.2 hrest hch2
      simp only [watchRun, hstep, List.sum_cons, lastTotal]
      rw [htail]
      ring

/-- C1 (corrected, counterexample): the claim's scenario fails on the code.
With stored baseline `100`, feeding totals `40` then `45` applies deltas
`0` and `0` — not `0` and `5` as the claim states — because the negative
branch overwrites the current total with the old baseline instead of
resetting the baseline to the current total. -/
theorem watch_reset_forward_baseline_cex :
    (watchRun 100 [40, 45]).2 = [0, 0] ∧ (watchRun 100 [40, 45]).2 ≠ [0, 5] := by
  decide

/-- C1 (amended): on a negative delta the applied delta is clamped to `0`
and the stored prior value is kept at its old, larger value (the code sets
`droppedUDP = lastDropped` before `lastDropped = droppedUDP`), so for the
tick sequence of totals 100, 40, 45 starting from baseline 100 at the
second tick, the applied deltas are 0 and 0 and the baseline stays 100. -/
theorem watch_reset_keeps_old_baseline :
    watchRun 100 [40, 45] = (100, [0, 0]) := by
  decide

theorem counterAfter_ge (ts : List Int) : ∀ c l : Int, c ≤ counterAfter c l ts := by
  induction ts with
  | nil => intro c l; exact le_rfl
  | cons t ts ih =>
    intro c l
    calc c ≤ c + (watchStep l t).2 := le_add_of_nonneg_right (watchStep_delta_nonneg l t)
      _ ≤ counterAfter (c + (watchStep l t).2) (watchStep l t).1 ts := ih _ _
      _ = counterAfter c l (t :: ts) := rfl

/-- C3 (confirmed): for every stored baseline and every sampled total, the
per-tick amount added to the exported dropped counter is `≥ 0`, and hence
the counter value is monotonically non-decreasing across any sequence of
sampled totals. -/
theorem dropped_counter_monotone :
    (∀ l c : Int, 0 ≤ (watchStep l c).2) ∧
      ∀ (c l : Int) (ts : List Int), c ≤ counterAfter c l ts :=
  ⟨watchStep_delta_nonneg, fun c l ts => counterAfter_ge ts c l⟩

/-- C8 (confirmed): feeding a non-empty non-decreasing sequence of totals
`t0 ≤ t1 ≤ ... ≤ t_last` (in the non-negative 64-bit range, as all sampled
totals of a real run that satisfy the claim's hypothesis are), one per
tick, starting from stored baseline `t0`, the applied deltas sum to exactly
`t_last - t0`. -/
theorem reconciler_sum_deltas (t0 : Int) (ts : List Int)
    (h0 : 0 ≤ t0) (hB : t0 < 9223372036854775808)
    (hts : ∀ t ∈ ts, 0 ≤ t ∧ t < 9223372036854775808)
    (hchain : List.Chain (fun a b => a ≤ b) t0 ts) :
    ((watchRun t0 (t0 :: ts)).2).sum = lastTotal t0 ts - t0 := by
  have hstep : watchStep t0 t0 = (t0, 0) := by
    have h := watchStep_of_le t0 t0 h0 hB h0 hB le_rfl
    simpa using h
  have htail := watchRun_sum_chain ts t0 h0 hB hts hchain
  simp only [watchRun, hstep, List.sum_cons]
  rw [htail]
  ring

/-- Witness for C8 at the concrete tick sequence 100, 140, 145:
the deltas sum to 45 = 145 - 100. -/
theorem reconciler_sum_deltas_witness :
    ((watchRun 100 [100, 140, 145]).2).sum = 45 := by
  have h := reconciler_sum_deltas 100 [140, 145] (by decide) (by decide)
    (by decide)
    (List.Chain.cons (by decide) (List.Chain.cons (by decide) List.Chain.nil))
  have h2 : lastTotal 100 [140, 145] = 145 := rfl
  rw [h2] at h
  rw [h]
  decide

theorem watchRun_below_baseline (ts : List Int) :
    ∀ l : Int, 0 ≤ l → l < 9223372036854775808 →
      (∀ t ∈ ts, 0 ≤ t ∧ t < l) →
      watchRun l ts = (l, ts.map fun _ => (0 : Int)) := by
  induction ts with
  | nil => intro l _ _ _; rfl
  | cons t ts ih =>
    intro l hl0 hlB hts
    have hm := hts t (List.mem_cons_self _ _)
    have hstep : watchStep l t = (l, 0) :=
      watchStep_of_lt l t hl0 hlB hm.1 (lt_trans hm.2 hlB) hm.2
    have htail := ih l hl0 hlB (fun x hx => hts x (List.mem_cons_of_mem _ hx))
    simp [watchRun, hstep, htail]

/-- C10 (confirmed): the stored baseline is monotonically non-decreasing
across ticks; on a negative delta (`cur < last`) the baseline is kept at
its old larger value with applied delta 0, and while every sampled total
stays below the pre-reset baseline, every subsequent tick applies delta 0
and leaves the baseline unchanged. -/
theorem baseline_monotone (l c : Int)
    (hl0 : 0 ≤ l) (hlB : l < 9223372036854775808)
    (hc0 : 0 ≤ c) (hcB : c < 9223372036854775808) :
    l ≤ (watchStep l c).1 ∧
      (c < l → watchStep l c = (l, 0)) ∧
      ∀ ts : List Int, (∀ t ∈ ts, 0 ≤ t ∧ t < l) →
        watchRun l ts = (l, ts.map fun _ => (0 : Int)) := by
  refine ⟨?_, fun h => watchStep_of_lt l c hl0 hlB hc0 hcB h,
    fun ts hts => watchRun_below_baseline ts l hl0 hlB hts⟩
  rcases le_or_lt l c with h | h
  · rw [watchStep_of_le l c hl0 hlB hc0 hcB h]
    exact h
  · rw [watchStep_of_lt l c hl0 hlB hc0 hcB h]

/-- Witness for C10 at baseline 100 with totals 40, 45, 99 below it. -/
theorem baseline_monotone_witness :
    100 ≤ (watchStep 100 40).1 ∧ watchStep 100 40 = (100, 0) ∧
      watchRun 100 [40, 45, 99] = (100, [0, 0, 0]) := by
  obtain ⟨h1, h2, h3⟩ := baseline_monotone 100 40 (by decide) (by decide)
    (by decide) (by decide)
  refine ⟨h1, h2 (by decide), ?_⟩
  have h4 := h3 [40, 45, 99] (by decide)
  simpa using h4

theorem walkStep_clean (target : List Char) (st : Option Int) (e : ProcEntry)
    (h : cleanEntry e = true) :
    walkProcFSStatus target st e =
      .ok (match matchPid target e with | some p => some p | none => st) := by
  unfold cleanEntry at h
  rw [Bool.and_eq_true] at h
  obtain ⟨hw, h2⟩ := h
  rw [Bool.not_eq_true'] at hw
  cases hs : isStatusPath e.path with
  | false => simp [walkProcFSStatus, matchPid, hw, hs]
  | true =>
    rw [hs] at h2
    simp only [Bool.not_true, Bool.false_or, Bool.and_eq_true, Option.isSome_iff_exists] at h2
    obtain ⟨⟨pid, hpid⟩, nm, hnm⟩ := h2
    rw [Option.bind_eq_some] at hpid hnm
    obtain ⟨seg, hseg, hpid⟩ := hpid
    obtain ⟨f, hf, hnm⟩ := hnm
    by_cases hnt : nm = target
    · simp [walkProcFSStatus, matchPid, hw, hs, hseg, hpid, hf, hnm, hnt]
    · simp [walkProcFSStatus, matchPid, hw, hs, hseg, hpid, hf, hnm, hnt]

theorem firstMatch_append (target : List Char) (l1 l2 : List ProcEntry) :
    firstMatch target (l1 ++ l2) =
      match firstMatch target l1 with
      | some p => some p
      | none => firstMatch target l2 := by
  induction l1 with
  | nil => simp [firstMatch]
  | cons e es ih =>
    cases hm : matchPid target e with
    | none => simpa [firstMatch, hm] using ih
    | some p => simp [firstMatch, hm]

theorem filepathWalk_clean (target : List Char) (entries : List ProcEntry) :
    ∀ st : Option Int, (∀ e ∈ entries, cleanEntry e = true) →
      filepathWalk target st entries =
        .ok (match lastMatch target entries with | some p => some p | none => st) := by
  induction entries with
  | nil => intro st _; simp [filepathWalk, lastMatch, firstMatch]
  | cons e es ih =>
    intro st hclean
    have hstep := walkStep_clean target st e (hclean e (List.mem_cons_self _ _))
    have htail : ∀ x ∈ es, cleanEntry x = true :=
      fun x hx => hclean x (List.mem_cons_of_mem _ hx)
    have hlm : lastMatch target (e :: es) =
        match lastMatch target es with
        | some p => some p
        | none => matchPid target e := by
      unfold lastMatch
      rw [List.reverse_cons, firstMatch_append]
      cases firstMatch target es.reverse
      · simp [firstMatch]
        cases matchPid target e <;> rfl
      · simp [firstMatch]
    simp only [filepathWalk, hstep]
    rw [ih _ htail, hlm]
    cases lastMatch target es <;> cases matchPid target e <;> simp

/-- C5 (corrected, counterexample): with two cleanly scannable entries whose
status name equals the requested name, `findPIDByName` returns the PID of
the second (later) entry, not of the first: the assignment
`targetPID = strconv.Itoa(pid)` overwrites any earlier match. -/
theorem locator_first_match_cex :
    findPIDByName "x".toList
        [⟨"/proc/1/status".toList, false, some "Name:\tx\nUmask:\t0022\n".toList⟩,
         ⟨"/proc/2/status".toList, false, some "Name:\tx\nUmask:\t0022\n".toList⟩] =
      .ok (some 2) ∧
    findPIDByName "x".toList
        [⟨"/proc/1/status".toList, false, some "Name:\tx\nUmask:\t0022\n".toList⟩,
         ⟨"/proc/2/status".toList, false, some "Name:\tx\nUmask:\t0022\n".toList⟩] ≠
      .ok (some 1) :=
  ⟨rfl, fun h => absurd (Except.ok.inj h) (by decide)⟩

/-- C5 (amended): over any scan whose entries are all processed cleanly,
`findPIDByName` returns the identifier of the LAST entry in scan order
whose name exactly equals the requested name (later matches replace
earlier ones); no match yields the unset identifier. -/
theorem locator_last_match_wins (target : List Char) (entries : List ProcEntry)
    (h : ∀ e ∈ entries, cleanEntry e = true) :
    findPIDByName target entries = .ok (lastMatch target entries) := by
  rw [findPIDByName, filepathWalk_clean target entries none h]
  cases lastMatch target entries <;> rfl

/-- Witness for C5 (amended) on two identically-named clean entries:
the scan returns the PID of the later one. -/
theorem locator_last_match_wins_witness :
    findPIDByName "statsd".toList
        [⟨"/proc/7/status".toList, false, some "Name:\tstatsd\nState:\tS\n".toList⟩,
         ⟨"/proc/9/status".toList, false, some "Name:\tstatsd\nState:\tS\n".toList⟩] =
      .ok (some 9) := by
  have h := locator_last_match_wins "statsd".toList
    [⟨"/proc/7/status".toList, false, some "Name:\tstatsd\nState:\tS\n".toList⟩,
     ⟨"/proc/9/status".toList, false, some "Name:\tstatsd\nState:\tS\n".toList⟩]
    (by decide)
  have h2 : lastMatch "statsd".toList
      [⟨"/proc/7/status".toList, false, some "Name:\tstatsd\nState:\tS\n".toList⟩,
       ⟨"/proc/9/status".toList, false, some "Name:\tstatsd\nState:\tS\n".toList⟩] =
      some 9 := rfl
  rw [h2] at h
  exact h

/-- C6 (corrected, counterexample): a status entry whose file cannot be
read (`ioutil.ReadFile` fails, e.g. the process exited mid-scan) is NOT
skipped: the callback returns the error, `filepath.Walk` aborts — the
matching entry after it is never reached — and `findPIDByName` hits
`log.Fatal` because the error is not `io.EOF`, terminating the program. -/
theorem scan_read_failure_aborts_cex :
    findPIDByName "y".toList
        [⟨"/proc/11/status".toList, false, none⟩,
         ⟨"/proc/12/status".toList, false, some "Name:\ty\nState:\tS\n".toList⟩] =
      .error .errReturned ∧
    findPIDByName "y".toList
        [⟨"/proc/11/status".toList, false, none⟩,
         ⟨"/proc/12/status".toList, false, some "Name:\ty\nState:\tS\n".toList⟩] ≠
      .ok (some 12) :=
  ⟨rfl, fun h => nomatch h⟩

/-- C6 (amended): only entries for which the directory walk itself passes a
non-nil error are silently skipped (the scan continues past them); but when
a status file with a parseable PID segment cannot be read, the callback
returns the read error, which aborts the scan and, not being `io.EOF`,
terminates the program via `log.Fatal`. -/
theorem scan_walk_error_skipped_read_error_fatal :
    (∀ (target : List Char) (st : Option Int) (e : ProcEntry) (es : List ProcEntry),
        e.walkErr = true → filepathWalk target st (e :: es) = filepathWalk target st es) ∧
      ∀ (target : List Char) (st : Option Int) (e : ProcEntry) (es : List ProcEntry)
        (seg : List Char) (pid : Int),
        e.walkErr = false → isStatusPath e.path = true → pidSegment e.path = some seg →
          goParseInt 10 64 seg = some pid → e.content = none →
          filepathWalk target st (e :: es) = .error .errReturned := by
  constructor
  · intro target st e es hw
    simp [filepathWalk, walkProcFSStatus, hw]
  · intro target st e es seg pid hw hs hseg hpid hc
    simp [filepathWalk, walkProcFSStatus, hw, hs, hseg, hpid, hc]

/-- Witness for C6 (amended): a walk-error entry is skipped (same scan
result as without it), and an unreadable status entry aborts the scan. -/
theorem scan_walk_error_skipped_read_error_fatal_witness :
    filepathWalk "z".toList none
        [⟨"/proc/20".toList, true, none⟩,
         ⟨"/proc/20/status".toList, false, some "Name:\tz\nState:\tS\n".toList⟩] =
      filepathWalk "z".toList none
        [⟨"/proc/20/status".toList, false, some "Name:\tz\nState:\tS\n".toList⟩] ∧
      filepathWalk "z".toList none [⟨"/proc/21/status".toList, false, none⟩] =
        .error .errReturned := by
  obtain ⟨h1, h2⟩ := scan_walk_error_skipped_read_error_fatal
  exact ⟨h1 "z".toList none ⟨"/proc/20".toList, true, none⟩
      [⟨"/proc/20/status".toList, false, some "Name:\tz\nState:\tS\n".toList⟩] rfl,
    h2 "z".toList none ⟨"/proc/21/status".toList, false, none⟩ [] "21".toList 21
      rfl rfl rfl rfl rfl⟩
